import Mathlib

/-!
Verification development for the repository flag-reference scanner
(`src/lib/scanner/index.ts` together with the language-pattern table
`LANGUAGE_PATTERNS` / `detectLanguage` / `hasSDKImport`).

Strings are embedded as `List Char` (`Str`); file paths, file contents and
source lines are all such strings.  JavaScript's `String.prototype.includes`
becomes `jsIncludes`, `endsWith` becomes `isSuf`, `split('\n')` becomes
`splitOnNl`.  The regular expressions appearing in the pattern table use only
literal characters, character classes and (in one Go import pattern) `.*`,
so they are embedded into a small token language `Tok` with an exact
leftmost-match search `regexFind` mirroring `RegExp.exec` with `lastIndex = 0`
(`exec` returns the leftmost match; `match.index` is its start offset).
The filesystem is embedded as a tree `FSEntry`; `fs.promises.readdir` of an
unreadable directory and `readFile`/`stat` failures are represented by the
`badDir` constructor and by `content = none` respectively.  Exceptions are
embedded as `Except Unit`.
-/

/-- Strings of the embedded program: JavaScript strings as lists of characters. -/
abbrev Str := List Char

/-- The single-quote character (written via its code point). -/
def quoteCh : Char := Char.ofNat 39

/-- The backtick character (written via its code point). -/
def backtickCh : Char := Char.ofNat 96

/-- Predicate `isPre p s`: `p` is a prefix of `s` (model of prefix comparison used by
`jsIncludes`). -/
def isPre : Str → Str → Bool
  | [], _ => true
  | _ :: _, [] => false
  | c :: p, d :: s => c == d && isPre p s

/-- Model of JavaScript `s.includes(pat)`: `pat` occurs as a contiguous
substring of `s`. -/
def jsIncludes : Str → Str → Bool
  | [], pat => isPre pat []
  | c :: t, pat => if isPre pat (c :: t) then true else jsIncludes t pat

/-- Model of JavaScript `s.endsWith(pat)`. -/
def isSuf (pat s : Str) : Bool := isPre pat.reverse s.reverse

/-- Model of JavaScript `content.split('\n')` (on the empty string it yields
one empty piece, as in JavaScript). -/
def splitOnNl : Str → List Str
  | [] => [[]]
  | c :: s =>
    match splitOnNl s, c == '\n' with
    | r, true => [] :: r
    | [], false => [[c]]
    | l :: ls, false => (c :: l) :: ls

/-- Model of `array.join('\n')`. -/
def joinNl : List Str → Str
  | [] => []
  | [l] => l
  | l :: ls => l ++ '\n' :: joinNl ls

/-- Model of `path.join(a, b)` for a directory path and a plain entry name
(no separators, no `.`/`..` segments), as produced by the scanner's traversal. -/
def pathJoin (a b : Str) : Str := a ++ '/' :: b

/-- Model of `path.relative(base, target)` in the only situation the scanner
uses it: `target = pathJoin base rest …`, i.e. `target` extends `base` with a
separator, so the relative path is `target` with `base` and the separator
removed. -/
def relativePath (base target : Str) : Str := target.drop (base.length + 1)

/-- Model of `path.basename` for a path with no trailing separator. -/
def basename (p : Str) : Str := (p.reverse.takeWhile (fun c => c != '/')).reverse

/-! ## Regular-expression model

Every regex in the pattern table is a sequence of literal characters,
character classes such as `['"]`, and at most one `.*`.  A flag key is
interpolated into the pattern source unescaped; the interpolation is modelled
by `keyToks` below. -/

/-- One token of a pattern-table regular expression. -/
inductive Tok where
  | lit (c : Char)
  | cls (cs : List Char)
  | dot
  | dotStar
deriving DecidableEq

/-- A regex of the pattern table: a token sequence. -/
abbrev RPat := List Tok

/-- All suffixes of `s` reachable by skipping zero or more non-newline
characters (the strings `.*` may consume never cross a newline, since
JavaScript `.` does not match `\n`). -/
def dropNoNl : Str → List Str
  | [] => [[]]
  | c :: s => (c :: s) :: (if c == '\n' then [] else dropNoNl s)

/-- Matching `matchHere p s`: some prefix of `s` matches the token sequence `p`. -/
def matchHere : RPat → Str → Bool
  | [], _ => true
  | .lit c :: ts, s =>
    match s with
    | [] => false
    | d :: s2 => c == d && matchHere ts s2
  | .cls cs :: ts, s =>
    match s with
    | [] => false
    | d :: s2 => cs.contains d && matchHere ts s2
  | .dot :: ts, s =>
    match s with
    | [] => false
    | d :: s2 => d != '\n' && matchHere ts s2
  | .dotStar :: ts, s => (dropNoNl s).any fun s2 => matchHere ts s2

/-- Leftmost-match search from offset `i`. -/
def regexFindAux (p : RPat) : Str → Nat → Option Nat
  | s, i =>
    if matchHere p s then some i
    else
      match s with
      | [] => none
      | _ :: t => regexFindAux p t (i + 1)

/-- Model of `regex.exec(s)` (with `lastIndex` reset to `0`): the start offset
of the leftmost match, or `none`. -/
def regexFind (p : RPat) (s : Str) : Option Nat := regexFindAux p s 0

/-- Model of `regex.test(s)`. -/
def regexTest (p : RPat) (s : Str) : Bool := (regexFind p s).isSome

/-- Literal token sequence for a fixed string of the pattern source. -/
def litS (s : Str) : RPat := s.map Tok.lit

/-- The character class `['"]`. -/
def q2 : Tok := .cls ['"', quoteCh]

/-- The character class `['"`]` (quote, double quote, backtick). -/
def q3 : Tok := .cls ['"', quoteCh, backtickCh]

/-! ## Language profiles (`src/lib/scanner/patterns.ts`) -/

/-- The supported languages, in the insertion order of `LANGUAGE_PATTERNS`
(JavaScript object iteration order for string keys). -/
inductive Lang where
  | typescript
  | python
  | java
  | go
deriving DecidableEq

/-- Table `LANGUAGE_PATTERNS[lang].extensions`. -/
def extensions : Lang → List Str
  | .typescript => [".ts".toList, ".tsx".toList, ".js".toList, ".jsx".toList]
  | .python => [".py".toList]
  | .java => [".java".toList]
  | .go => [".go".toList]

/-- Table `LANGUAGE_PATTERNS[lang].sdkImports`.  Escaped dots (`\.`) and parens
(`\(`) in the sources are literal characters; the unescaped `.` in the Go
pattern is a wildcard. -/
def sdkImports : Lang → List RPat
  | .typescript =>
    [ litS ("from ".toList) ++ [q2] ++ litS ("launchdarkly-js-client-sdk".toList) ++ [q2]
    , litS ("from ".toList) ++ [q2] ++ litS ("launchdarkly-node-server-sdk".toList) ++ [q2]
    , litS ("require(".toList) ++ [q2] ++ litS ("launchdarkly-".toList) ]
  | .python =>
    [ litS ("import ldclient".toList), litS ("from ldclient".toList) ]
  | .java =>
    [ litS ("import com.launchdarkly.".toList) ]
  | .go =>
    [ litS ("import".toList) ++ [Tok.dotStar]
        ++ litS ("\"github.com/launchdarkly/".toList) ]

/-- Characters that are interpolated into a regex source unchanged as literal
matches of themselves.  A partial model of JavaScript `new RegExp` applied to
the interpolated pattern source: plain characters and `.` (a wildcard) are
modelled exactly; any other regex metacharacter in the key is conservatively
modelled as a construction failure.  This is exact for keys containing an
unbalanced `(` or `)` — the invalid-regex-syntax case the design discusses —
and for all ordinary flag keys, which contain no metacharacters at all. -/
def keyTok (c : Char) : Except Unit Tok :=
  if c == '.' then .ok .dot
  else if ['\\', '^', '$', '|', '?', '*', '+', '(', ')', '[', ']'].contains c then
    .error ()
  else .ok (.lit c)

/-- Model of interpolating a flag key into a regex source: per-character
translation; fails when construction of the surrounding `RegExp` would throw. -/
def keyToks (key : Str) : Except Unit RPat := key.mapM keyTok

/-- Table entry `LANGUAGE_PATTERNS[lang].flagCallPatterns(key)`: the ordered occurrence
patterns, with `new RegExp` construction failure modelled by `Except`. -/
def flagCallPatternsE (lang : Lang) (key : Str) : Except Unit (List RPat) := do
  let kt ← keyToks key
  match lang with
  | .typescript =>
    .ok [ litS (".variation(".toList) ++ [q3] ++ kt ++ [q3]
        , litS (".boolVariation(".toList) ++ [q3] ++ kt ++ [q3]
        , litS (".jsonVariation(".toList) ++ [q3] ++ kt ++ [q3]
        , [q3] ++ kt ++ [q3] ]
  | .python =>
    .ok [ litS (".variation(".toList) ++ [q2] ++ kt ++ [q2]
        , litS (".variation_detail(".toList) ++ [q2] ++ kt ++ [q2]
        , [q2] ++ kt ++ [q2] ]
  | .java =>
    .ok [ litS (".boolVariation(\"".toList) ++ kt ++ litS ("\"".toList)
        , litS (".stringVariation(\"".toList) ++ kt ++ litS ("\"".toList)
        , litS ("\"".toList) ++ kt ++ litS ("\"".toList) ]
  | .go =>
    .ok [ litS (".BoolVariation(\"".toList) ++ kt ++ litS ("\"".toList)
        , litS (".StringVariation(\"".toList) ++ kt ++ litS ("\"".toList)
        , litS ("\"".toList) ++ kt ++ litS ("\"".toList) ]

/-- Source `detectLanguage(filePath)`: first profile (in insertion order) one of
whose extensions is a suffix of the path; `none` otherwise. -/
def detectLanguage (filePath : Str) : Option Lang :=
  [Lang.typescript, Lang.python, Lang.java, Lang.go].find? fun l =>
    (extensions l).any fun ext => isSuf ext filePath

/-- Source `hasSDKImport(content, language)`: some SDK-import regex of the language
matches the content.  (The `!pattern` guard of the source is vacuous here
because `Lang` only has the four table keys.) -/
def hasSDKImport (content : Str) (lang : Lang) : Bool :=
  (sdkImports lang).any fun p => regexTest p content

/-! ## Match classification and confidence (`CodeScanner.determineMatchType`,
`CodeScanner.determineConfidence`, `CodeScanner.getSnippet`) -/

/-- Enum `ScanMatch.matchType`. -/
inductive MatchType where
  | sdk_call
  | string_literal
  | config
  | test
deriving DecidableEq

/-- Enum `ScanMatch.confidence`. -/
inductive Confidence where
  | high
  | medium
  | low
deriving DecidableEq

/-- Source `CodeScanner.determineMatchType`: case-sensitive substring checks on the
matched line, first hit wins.  The `_hSDK` argument mirrors the unused
`_hasSDK` parameter of the source. -/
def determineMatchType (line : Str) (_hSDK : Bool) : MatchType :=
  if jsIncludes line (".variation".toList) || jsIncludes line ("Variation".toList) then
    .sdk_call
  else if jsIncludes line ("config".toList) || jsIncludes line ("Config".toList)
      || jsIncludes line ("FLAG".toList) then
    .config
  else if jsIncludes line ("test".toList) || jsIncludes line ("Test".toList)
      || jsIncludes line ("spec".toList) then
    .test
  else
    .string_literal

/-- The `isTest` computation of `CodeScanner.determineConfidence`, applied to
the (absolute) file path handed to it. -/
def isTestPath (filePath : Str) : Bool :=
  jsIncludes filePath ("test".toList) || jsIncludes filePath ("spec".toList)
    || jsIncludes filePath ("__tests__".toList)

/-- Source `CodeScanner.determineConfidence`. -/
def determineConfidence (matchType : MatchType) (hasSDK : Bool) (filePath : Str) :
    Confidence :=
  let isTest := isTestPath filePath
  if matchType == .sdk_call && hasSDK && !isTest then .high
  else if matchType == .sdk_call || (matchType == .string_literal && hasSDK) then .medium
  else .low

/-- Source `CodeScanner.getSnippet`: the lines from `max 0 (i-1)` (inclusive) to
`min length (i+2)` (exclusive), joined with newlines.  Natural-number
subtraction gives exactly the `Math.max(0, i-1)` clamping. -/
def getSnippet (lines : List Str) (lineIndex : Nat) : Str :=
  joinNl ((lines.drop (lineIndex - 1)).take
    (min lines.length (lineIndex + 2) - (lineIndex - 1)))

/-! ## File scanner (`CodeScanner.scanFile`) -/

/-- One recorded occurrence (`ScanMatch` of `src/lib/scanner/types.ts`;
`language` is kept as the `Lang` enum rather than its string name). -/
structure ScanMatch where
  file : Str
  line : Nat
  column : Nat
  snippet : Str
  matchType : MatchType
  confidence : Confidence
  language : Lang
deriving DecidableEq

/-- The `ScanMatch` pushed by `scanFile` for a hit on the line with 0-based
index `i` at column `col`. -/
def mkMatch (filePath repoPath : Str) (lang : Lang) (hasSDK : Bool)
    (allLines : List Str) (i : Nat) (line : Str) (col : Nat) : ScanMatch :=
  let matchType := determineMatchType line hasSDK
  { file := relativePath repoPath filePath
  , line := i + 1
  , column := col
  , snippet := getSnippet allLines i
  , matchType := matchType
  , confidence := determineConfidence matchType hasSDK filePath
  , language := lang }

/-- The inner `for (const regex of flagPatterns) … break` loop: the patterns
are tried in profile order and the first matching one yields the column; later
patterns are ignored. -/
def firstPatternMatch : List RPat → Str → Option Nat
  | [], _ => none
  | p :: ps, line =>
    match regexFind p line with
    | some i => some i
    | none => firstPatternMatch ps line

/-- The outer line loop of `scanFile`: one `ScanMatch` per line on which some
pattern matches, nothing otherwise.  `i` is the 0-based index of the first
line of `ls` within `allLines`. -/
def scanLinesAux (filePath repoPath : Str) (lang : Lang) (hasSDK : Bool)
    (allLines : List Str) (pats : List RPat) : Nat → List Str → List ScanMatch
  | _, [] => []
  | i, line :: rest =>
    match firstPatternMatch pats line with
    | some col =>
      mkMatch filePath repoPath lang hasSDK allLines i line col
        :: scanLinesAux filePath repoPath lang hasSDK allLines pats (i + 1) rest
    | none => scanLinesAux filePath repoPath lang hasSDK allLines pats (i + 1) rest

/-- Source `CodeScanner.scanFile`.  The only exception it can raise is the
`flagCallPatterns` regex-construction failure, hence the `Except`. -/
def scanFileE (filePath content flagKey : Str) (lang : Lang) (repoPath : Str) :
    Except Unit (List ScanMatch) := do
  let lines := splitOnNl content
  let hasSDK := hasSDKImport content lang
  let flagPatterns ← flagCallPatternsE lang flagKey
  .ok (scanLinesAux filePath repoPath lang hasSDK lines flagPatterns 0 lines)

/-! ## Repository walker (`CodeScanner.scanRepository`) -/

/-- Constant `IGNORE_DIRS`. -/
def IGNORE_DIRS : List Str :=
  ["node_modules".toList, ".git".toList, "dist".toList, "build".toList,
   ".next".toList, "coverage".toList, "out".toList]

/-- Constant `MAX_FILE_SIZE` (1 MiB). -/
def MAX_FILE_SIZE : Nat := 1024 * 1024

/-- A filesystem snapshot entry, as seen through `readdir(withFileTypes)`:
a regular file (whose `content = none` models a `stat`/`readFile` failure),
a readable directory, an unreadable directory (`readdir` throws on it), or an
entry that is neither a regular file nor a directory (symlink, socket, …). -/
inductive FSEntry where
  | file (name : Str) (size : Nat) (content : Option Str)
  | dir (name : Str) (entries : List FSEntry)
  | badDir (name : Str)
  | otherEntry (name : Str)

/-- The mutable accumulator of `scanRepository`: the `matches` array (named
`matchList` here because `matches` is reserved in Lean) and the two
counters. -/
structure ScanAcc where
  matchList : List ScanMatch
  scannedFiles : Nat
  skippedFiles : Nat
deriving DecidableEq

/-- Skip a file: `skippedFiles++`. -/
def ScanAcc.skip (acc : ScanAcc) : ScanAcc :=
  { acc with skippedFiles := acc.skippedFiles + 1 }

mutual

/-- One iteration of the `for (const entry of entries)` loop of `scanDir`.
Directories named in `IGNORE_DIRS` are not descended into; an unreadable
directory makes the recursive `readdir` throw, uncaught; for files, language
detection happens outside the `try`, and the `try` block (stat, size ceiling,
read, `scanFile`) turns every failure into `skippedFiles++`. -/
def scanEntryE (flagKey repoPath dirPath : Str) (acc : ScanAcc) :
    FSEntry → Except Unit ScanAcc
  | .dir name entries =>
    if IGNORE_DIRS.contains name then .ok acc
    else scanDirE flagKey repoPath (pathJoin dirPath name) acc entries
  | .badDir name =>
    if IGNORE_DIRS.contains name then .ok acc
    else .error ()
  | .file name size content? =>
    match detectLanguage name with
    | none => .ok acc.skip
    | some lang =>
      if size > MAX_FILE_SIZE then .ok acc.skip
      else
        match content? with
        | none => .ok acc.skip
        | some content =>
          match scanFileE (pathJoin dirPath name) content flagKey lang repoPath with
          | .error _ => .ok acc.skip
          | .ok fileMatches =>
            .ok { acc with
                  matchList := acc.matchList ++ fileMatches,
                  scannedFiles := acc.scannedFiles + 1 }
  | .otherEntry _ => .ok acc

/-- The `scanDir` loop over the entries of one directory, in `readdir` order. -/
def scanDirE (flagKey repoPath dirPath : Str) (acc : ScanAcc) :
    List FSEntry → Except Unit ScanAcc
  | [] => .ok acc
  | e :: es => do
    let acc2 ← scanEntryE flagKey repoPath dirPath acc e
    scanDirE flagKey repoPath dirPath acc2 es

end

/-- Structure `ScanResult` of `src/lib/scanner/types.ts` (`matches` renamed to
`matchList`, see `ScanAcc`). -/
structure ScanResult where
  flagKey : Str
  provider : Str
  repo : Str
  totalMatches : Nat
  matchList : List ScanMatch
  scannedFiles : Nat
  skippedFiles : Nat
  scanDurationMs : Nat
deriving DecidableEq

/-- Source `CodeScanner.scanRepository`.  Here `root = none` models the fatal case: the
initial `readdir(repoPath)` throws (path missing, not a directory, or
unreadable) and nothing catches it.  `durationMs` stands for the ambient
clock difference `Date.now() - startTime`, which is the only
non-filesystem-determined output. -/
def scanRepositoryE (root : Option (List FSEntry)) (repoPath flagKey provider : Str)
    (durationMs : Nat) : Except Unit ScanResult :=
  match root with
  | none => .error ()
  | some entries => do
    let acc ← scanDirE flagKey repoPath repoPath ⟨[], 0, 0⟩ entries
    .ok { flagKey := flagKey
        , provider := provider
        , repo := basename repoPath
        , totalMatches := acc.matchList.length
        , matchList := acc.matchList
        , scannedFiles := acc.scannedFiles
        , skippedFiles := acc.skippedFiles
        , scanDurationMs := durationMs }

/-! ## Counting functions over a snapshot

`visitedCountL` counts the regular files the traversal visits (not inside an
ignored directory); `scannedCountL` counts those the `try` block processes to
completion (recognized language, within the size ceiling, readable, and
occurrence-pattern construction succeeded); `dirsReadableL` says the traversal
never hits an unreadable directory. -/

mutual

/-- Regular files visited below one entry. -/
def visitedCountE : FSEntry → Nat
  | .file _ _ _ => 1
  | .dir name es => if IGNORE_DIRS.contains name then 0 else visitedCountL es
  | .badDir _ => 0
  | .otherEntry _ => 0

/-- Regular files visited in a list of entries. -/
def visitedCountL : List FSEntry → Nat
  | [] => 0
  | e :: es => visitedCountE e + visitedCountL es

end

mutual

/-- Files below one entry whose whole per-file processing succeeds
(`patsOk` is whether occurrence-pattern construction succeeds for the key). -/
def scannedCountE (patsOk : Bool) : FSEntry → Nat
  | .file name size content? =>
    match detectLanguage name with
    | none => 0
    | some _ =>
      if size > MAX_FILE_SIZE then 0
      else
        match content? with
        | none => 0
        | some _ => if patsOk then 1 else 0
  | .dir name es => if IGNORE_DIRS.contains name then 0 else scannedCountL patsOk es
  | .badDir _ => 0
  | .otherEntry _ => 0

/-- Files processed to completion in a list of entries. -/
def scannedCountL (patsOk : Bool) : List FSEntry → Nat
  | [] => 0
  | e :: es => scannedCountE patsOk e + scannedCountL patsOk es

end

mutual

/-- No unreadable directory is reachable by the traversal below this entry. -/
def dirsReadableE : FSEntry → Bool
  | .dir name es => IGNORE_DIRS.contains name || dirsReadableL es
  | .badDir name => IGNORE_DIRS.contains name
  | .file _ _ _ => true
  | .otherEntry _ => true

/-- No unreadable directory is reachable by the traversal of these entries. -/
def dirsReadableL : List FSEntry → Bool
  | [] => true
  | e :: es => dirsReadableE e && dirsReadableL es

end

/-! ## Basic lemmas about the string model -/

theorem isPre_append (p : Str) : ∀ s t : Str, isPre p s = true → isPre p (s ++ t) = true := by
  induction p with
  | nil => intro s t _; rfl
  | cons c p ih =>
    intro s t h
    cases s with
    | nil => simp [isPre] at h
    | cons d s =>
      simp only [isPre, Bool.and_eq_true] at h ⊢
      exact ⟨h.1, ih s t h.2⟩

theorem jsIncludes_nil_pat : ∀ s : Str, jsIncludes s [] = true := by
  intro s
  cases s with
  | nil => rfl
  | cons c t => simp [jsIncludes, isPre]

theorem jsIncludes_append (pat : Str) : ∀ s t : Str,
    jsIncludes s pat = true → jsIncludes (s ++ t) pat = true := by
  intro s
  induction s with
  | nil =>
    intro t h
    simp only [jsIncludes] at h
    cases pat with
    | nil => exact jsIncludes_nil_pat t
    | cons c q => simp [isPre] at h
  | cons c s ih =>
    intro t h
    simp only [jsIncludes] at h
    rw [List.cons_append, jsIncludes]
    by_cases hp : isPre pat (c :: s) = true
    · have h2 := isPre_append pat (c :: s) t hp
      rw [List.cons_append] at h2
      simp [h2]
    · rw [if_neg hp] at h
      simp [ih t h]

theorem isTestPath_pathJoin (dp name : Str) (h : isTestPath dp = true) :
    isTestPath (pathJoin dp name) = true := by
  simp only [isTestPath, pathJoin, Bool.or_eq_true] at h ⊢
  rcases h with (h | h) | h
  · exact Or.inl (Or.inl (jsIncludes_append _ dp ('/' :: name) h))
  · exact Or.inl (Or.inr (jsIncludes_append _ dp ('/' :: name) h))
  · exact Or.inr (jsIncludes_append _ dp ('/' :: name) h)

theorem determineConfidence_not_high_of_testPath (mt : MatchType) (hs : Bool)
    (fp : Str) (h : isTestPath fp = true) :
    determineConfidence mt hs fp ≠ Confidence.high := by
  simp only [determineConfidence, h]
  cases mt <;> cases hs <;> simp

/-- C1.  The confidence level is exactly the three-way policy of the design:
`high` iff `sdk_call ∧ hasSDK ∧ ¬ isTestPath`; otherwise `medium` iff
`sdk_call` or (`string_literal ∧ hasSDK`); otherwise `low` (so `config`/`test`
matches and SDK-less string literals are `low`, and a test-path file is never
`high`). -/
theorem confidence_matches_spec (mt : MatchType) (hasSDK : Bool) (filePath : Str) :
    (determineConfidence mt hasSDK filePath = Confidence.high ↔
      (mt = MatchType.sdk_call ∧ hasSDK = true ∧ isTestPath filePath = false)) ∧
    (determineConfidence mt hasSDK filePath = Confidence.medium ↔
      (¬(mt = MatchType.sdk_call ∧ hasSDK = true ∧ isTestPath filePath = false) ∧
        (mt = MatchType.sdk_call ∨ (mt = MatchType.string_literal ∧ hasSDK = true)))) ∧
    (determineConfidence mt hasSDK filePath = Confidence.low ↔
      (¬(mt = MatchType.sdk_call ∧ hasSDK = true ∧ isTestPath filePath = false) ∧
        ¬(mt = MatchType.sdk_call ∨ (mt = MatchType.string_literal ∧ hasSDK = true)))) := by
  cases mt <;> cases hasSDK <;> cases h : isTestPath filePath <;>
    simp [determineConfidence, h]

/-- C2.  The match type is decided by case-sensitive substring checks in
priority order, first hit winning: `.variation`/`Variation` ⇒ `sdk_call`;
else `config`/`Config`/`FLAG` ⇒ `config`; else `test`/`Test`/`spec` ⇒ `test`;
else `string_literal`. -/
theorem matchType_priority_order (line : Str) (hSDK : Bool) :
    (determineMatchType line hSDK = MatchType.sdk_call ↔
      (jsIncludes line (".variation".toList) = true ∨
        jsIncludes line ("Variation".toList) = true)) ∧
    (determineMatchType line hSDK = MatchType.config ↔
      (¬(jsIncludes line (".variation".toList) = true ∨
          jsIncludes line ("Variation".toList) = true) ∧
        (jsIncludes line ("config".toList) = true ∨
          jsIncludes line ("Config".toList) = true ∨
          jsIncludes line ("FLAG".toList) = true))) ∧
    (determineMatchType line hSDK = MatchType.test ↔
      (¬(jsIncludes line (".variation".toList) = true ∨
          jsIncludes line ("Variation".toList) = true) ∧
        ¬(jsIncludes line ("config".toList) = true ∨
          jsIncludes line ("Config".toList) = true ∨
          jsIncludes line ("FLAG".toList) = true) ∧
        (jsIncludes line ("test".toList) = true ∨
          jsIncludes line ("Test".toList) = true ∨
          jsIncludes line ("spec".toList) = true))) ∧
    (determineMatchType line hSDK = MatchType.string_literal ↔
      (¬(jsIncludes line (".variation".toList) = true ∨
          jsIncludes line ("Variation".toList) = true) ∧
        ¬(jsIncludes line ("config".toList) = true ∨
          jsIncludes line ("Config".toList) = true ∨
          jsIncludes line ("FLAG".toList) = true) ∧
        ¬(jsIncludes line ("test".toList) = true ∨
          jsIncludes line ("Test".toList) = true ∨
          jsIncludes line ("spec".toList) = true))) := by
  cases h1 : jsIncludes line (".variation".toList) <;>
    cases h2 : jsIncludes line ("Variation".toList) <;>
      cases h3 : jsIncludes line ("config".toList) <;>
        cases h4 : jsIncludes line ("Config".toList) <;>
          cases h5 : jsIncludes line ("FLAG".toList) <;>
            cases h6 : jsIncludes line ("test".toList) <;>
              cases h7 : jsIncludes line ("Test".toList) <;>
                cases h8 : jsIncludes line ("spec".toList) <;>
                  simp only [determineMatchType, h1, h2, h3, h4, h5, h6, h7, h8] <;>
                    decide

/-! ## Per-line structure of the file scanner -/

theorem scanLinesAux_mem (fp rp : Str) (lg : Lang) (hs : Bool) (allLines : List Str)
    (pats : List RPat) :
    ∀ (ls : List Str) (i : Nat) (m : ScanMatch),
      m ∈ scanLinesAux fp rp lg hs allLines pats i ls →
      ∃ j l, ls.get? j = some l ∧ m.line = i + j + 1 ∧
        firstPatternMatch pats l = some m.column ∧
        m = mkMatch fp rp lg hs allLines (i + j) l m.column := by
  intro ls
  induction ls with
  | nil => intro i m hm; simp [scanLinesAux] at hm
  | cons line rest ih =>
    intro i m hm
    rw [scanLinesAux] at hm
    cases hf : firstPatternMatch pats line with
    | some col =>
      rw [hf] at hm
      rcases List.mem_cons.mp hm with h | h
      · refine ⟨0, line, rfl, ?_, ?_, ?_⟩
        · rw [h]; rfl
        · rw [h, hf]; rfl
        · rw [h]; rfl
      · rcases ih (i + 1) m h with ⟨j, l, hget, hline, hcol, hmk⟩
        refine ⟨j + 1, l, by simpa using hget, by omega, hcol, ?_⟩
        have : i + 1 + j = i + (j + 1) := by omega
        rw [← this]; exact hmk
    | none =>
      rw [hf] at hm
      rcases ih (i + 1) m hm with ⟨j, l, hget, hline, hcol, hmk⟩
      refine ⟨j + 1, l, by simpa using hget, by omega, hcol, ?_⟩
      have : i + 1 + j = i + (j + 1) := by omega
      rw [← this]; exact hmk

theorem scanLinesAux_pairwise (fp rp : Str) (lg : Lang) (hs : Bool)
    (allLines : List Str) (pats : List RPat) :
    ∀ (ls : List Str) (i : Nat),
      List.Pairwise (fun a b => a.line < b.line)
        (scanLinesAux fp rp lg hs allLines pats i ls) := by
  intro ls
  induction ls with
  | nil => intro i; simp [scanLinesAux]
  | cons line rest ih =>
    intro i
    rw [scanLinesAux]
    cases hf : firstPatternMatch pats line with
    | some col =>
      refine List.Pairwise.cons ?_ (ih (i + 1))
      intro b hb
      rcases scanLinesAux_mem fp rp lg hs allLines pats rest (i + 1) b hb with
        ⟨j, l, _, hline, _, _⟩
      simp only [mkMatch]
      omega
    | none => exact ih (i + 1)

theorem pairwise_lt_filter_le {α : Type} (f : α → Nat) (n : Nat) :
    ∀ l : List α, List.Pairwise (fun a b => f a < f b) l →
      ((l.filter fun x => f x == n).length ≤ 1) := by
  intro l
  induction l with
  | nil => intro _; simp
  | cons a l ih =>
    intro hp
    rcases List.pairwise_cons.mp hp with ⟨h1, h2⟩
    rw [List.filter_cons]
    cases hfa : (f a == n) with
    | false => simpa using ih h2
    | true =>
      have hfa2 : f a = n := by simpa using hfa
      have : (l.filter fun x => f x == n) = [] := by
        rw [List.filter_eq_nil_iff]
        intro b hb
        have := h1 b hb
        simp only [beq_iff_eq]
        omega
      simp [this]

/-- C4.  At most one `ScanMatch` per (file, line) pair: the patterns are tried
in profile order with the first hit winning, and each recorded match's column
is the result of `firstPatternMatch` on that line, after which scanning of the
line stops. -/
theorem one_match_per_line (filePath content flagKey : Str) (lang : Lang)
    (repoPath : Str) (pats : List RPat) (ms : List ScanMatch)
    (hp : flagCallPatternsE lang flagKey = Except.ok pats)
    (h : scanFileE filePath content flagKey lang repoPath = Except.ok ms) (n : Nat) :
    ((ms.filter fun m => m.line == n).length ≤ 1) ∧
    ∀ m ∈ ms, ∃ l, (splitOnNl content).get? (m.line - 1) = some l ∧
      firstPatternMatch pats l = some m.column := by
  have heq : scanFileE filePath content flagKey lang repoPath =
      Except.ok (scanLinesAux filePath repoPath lang (hasSDKImport content lang)
        (splitOnNl content) pats 0 (splitOnNl content)) := by
    unfold scanFileE
    rw [hp]
    rfl
  rw [heq] at h
  have h2 := Except.ok.inj h
  subst h2
  constructor
  · exact pairwise_lt_filter_le (fun m : ScanMatch => m.line) n _
      (scanLinesAux_pairwise _ _ _ _ _ _ _ 0)
  · intro m hm
    rcases scanLinesAux_mem _ _ _ _ _ _ _ 0 m hm with ⟨j, l, hget, hline, hcol, _⟩
    refine ⟨l, ?_, hcol⟩
    have : m.line - 1 = j := by omega
    rw [this]
    exact hget

/-- The single content line of the weak-literal scenario: `x = "OLD_FLAG"`. -/
def pyLine : Str := "x = ".toList ++ '"' :: ("OLD_FLAG".toList ++ ['"'])

/-- The Python occurrence patterns for flag key `OLD_FLAG`. -/
def pyPats : List RPat :=
  (flagCallPatternsE Lang.python ("OLD_FLAG".toList)).toOption.getD []

/-- The matches of scanning the one-line Python file of the weak-literal
scenario. -/
def pyMs : List ScanMatch :=
  (scanFileE (pathJoin ("repo".toList) ("a.py".toList)) pyLine ("OLD_FLAG".toList)
    Lang.python ("repo".toList)).toOption.getD []

theorem one_match_per_line_witness :
    ((pyMs.filter fun m => m.line == 1).length ≤ 1) ∧
    ∀ m ∈ pyMs, ∃ l, (splitOnNl pyLine).get? (m.line - 1) = some l ∧
      firstPatternMatch pyPats l = some m.column :=
  one_match_per_line (pathJoin ("repo".toList) ("a.py".toList)) pyLine
    ("OLD_FLAG".toList) Lang.python ("repo".toList) pyPats pyMs rfl rfl 1

/-! ## The weak-literal scenario (a Python file whose only line is
`x = "OLD_FLAG"`, flag key `OLD_FLAG`, no SDK import) -/

/-- A snapshot containing the scenario file only. -/
def pyRoot : List FSEntry := [FSEntry.file ("a.py".toList) 14 (some pyLine)]

/-- C3 counterexample.  Scanning the weak-literal scenario yields exactly one
match, but its match type is `config` — the line contains the substring
`FLAG` (inside the key `OLD_FLAG`), and the `config` check has priority over
the `string_literal` fallback — so the claimed `string_literal` is wrong. -/
theorem weakLiteral_counterexample :
    ((scanRepositoryE (some pyRoot) ("repo".toList) ("OLD_FLAG".toList)
        ("launchdarkly".toList) 0).map
      (fun r => r.matchList.map ScanMatch.matchType) = Except.ok [MatchType.config]) ∧
    MatchType.config ≠ MatchType.string_literal :=
  ⟨rfl, by decide⟩

/-- C3 amended.  The weak-literal scenario yields exactly one `ScanMatch`,
with `matchType = config` (the line contains `FLAG` as a substring of the
key) and `confidence = low`. -/
theorem weakLiteral_amended :
    (scanRepositoryE (some pyRoot) ("repo".toList) ("OLD_FLAG".toList)
        ("launchdarkly".toList) 0).map
      (fun r => (r.totalMatches,
        r.matchList.map (fun m => (m.matchType, m.confidence)))) =
      Except.ok (1, [(MatchType.config, Confidence.low)]) := rfl

/-! ## Success and failure of pattern construction -/

/-- Whether occurrence-pattern construction succeeds for this key (it does not
depend on the language). -/
def patternsOk (key : Str) : Bool :=
  match keyToks key with
  | .ok _ => true
  | .error _ => false

theorem flagCallPatternsE_err (lang : Lang) (key : Str)
    (h : keyToks key = .error ()) : flagCallPatternsE lang key = .error () := by
  unfold flagCallPatternsE
  rw [h]
  rfl

theorem flagCallPatternsE_ok (lang : Lang) (key : Str) (kt : RPat)
    (h : keyToks key = .ok kt) : ∃ ps, flagCallPatternsE lang key = .ok ps := by
  cases lang <;> exact ⟨_, by unfold flagCallPatternsE; rw [h]; rfl⟩

theorem scanFileE_err (fp c flagKey : Str) (lang : Lang) (rp : Str)
    (h : keyToks flagKey = .error ()) :
    scanFileE fp c flagKey lang rp = .error () := by
  unfold scanFileE
  rw [flagCallPatternsE_err lang flagKey h]
  rfl

theorem scanFileE_ok (fp c flagKey : Str) (lang : Lang) (rp : Str) (kt : RPat)
    (h : keyToks flagKey = .ok kt) :
    ∃ ms, scanFileE fp c flagKey lang rp = .ok ms := by
  rcases flagCallPatternsE_ok lang flagKey kt h with ⟨ps, hps⟩
  exact ⟨_, by unfold scanFileE; rw [hps]; rfl⟩

/-! ## Counter conservation along the traversal -/

mutual

theorem scanEntryE_counts (fk rp dp : Str) (acc : ScanAcc) (e : FSEntry)
    (acc2 : ScanAcc) (h : scanEntryE fk rp dp acc e = .ok acc2) :
    acc2.scannedFiles + acc2.skippedFiles
        = acc.scannedFiles + acc.skippedFiles + visitedCountE e ∧
      acc2.scannedFiles = acc.scannedFiles + scannedCountE (patternsOk fk) e := by
  cases e with
  | file name size content? =>
    simp only [scanEntryE] at h
    split at h
    · rename_i hdl
      have hacc := Except.ok.inj h
      subst hacc
      simp [visitedCountE, scannedCountE, hdl, ScanAcc.skip] <;> omega
    · rename_i lang hdl
      split at h
      · rename_i hsize
        have hacc := Except.ok.inj h
        subst hacc
        simp [visitedCountE, scannedCountE, hdl, ScanAcc.skip, hsize] <;> omega
      · rename_i hsize
        split at h
        · have hacc := Except.ok.inj h
          subst hacc
          simp [visitedCountE, scannedCountE, hdl, ScanAcc.skip, hsize] <;> omega
        · rename_i content
          split at h
          · rename_i u hsf
            have hacc := Except.ok.inj h
            subst hacc
            have hpk : patternsOk fk = false := by
              unfold patternsOk
              cases hk : keyToks fk with
              | error u2 => rfl
              | ok kt =>
                rcases scanFileE_ok (pathJoin dp name) content fk lang rp kt hk with
                  ⟨ms, hms⟩
                rw [hms] at hsf
                cases hsf
            simp [visitedCountE, scannedCountE, hdl, ScanAcc.skip, hsize, hpk] <;>
              omega
          · rename_i fileMatches hsf
            have hacc := Except.ok.inj h
            subst hacc
            have hpk : patternsOk fk = true := by
              unfold patternsOk
              cases hk : keyToks fk with
              | ok kt => rfl
              | error u2 =>
                rw [scanFileE_err (pathJoin dp name) content fk lang rp
                  (by cases u2; exact hk)] at hsf
                cases hsf
            simp [visitedCountE, scannedCountE, hdl, hsize, hpk] <;> omega
  | dir name entries =>
    simp only [scanEntryE] at h
    by_cases hig : IGNORE_DIRS.contains name = true
    · rw [if_pos hig] at h
      have hacc := Except.ok.inj h
      subst hacc
      have hmem : name ∈ IGNORE_DIRS := by simpa using hig
      simp [visitedCountE, scannedCountE, hmem] <;> omega
    · rw [if_neg hig] at h
      have h2 := scanDirE_counts fk rp (pathJoin dp name) acc entries acc2 h
      have hmem : name ∉ IGNORE_DIRS := by
        intro hm
        exact hig (by simpa using hm)
      simp only [visitedCountE, scannedCountE, hig, if_false, Bool.false_eq_true,
        if_neg hig]
      exact h2
  | badDir name =>
    simp only [scanEntryE] at h
    by_cases hig : IGNORE_DIRS.contains name = true
    · rw [if_pos hig] at h
      have hacc := Except.ok.inj h
      subst hacc
      simp [visitedCountE, scannedCountE] <;> omega
    · rw [if_neg hig] at h
      cases h
  | otherEntry name =>
    simp only [scanEntryE] at h
    have hacc := Except.ok.inj h
    subst hacc
    simp [visitedCountE, scannedCountE] <;> omega

theorem scanDirE_counts (fk rp dp : Str) (acc : ScanAcc) (es : List FSEntry)
    (acc2 : ScanAcc) (h : scanDirE fk rp dp acc es = .ok acc2) :
    acc2.scannedFiles + acc2.skippedFiles
        = acc.scannedFiles + acc.skippedFiles + visitedCountL es ∧
      acc2.scannedFiles = acc.scannedFiles + scannedCountL (patternsOk fk) es := by
  cases es with
  | nil =>
    simp only [scanDirE] at h
    have hacc := Except.ok.inj h
    subst hacc
    simp [visitedCountL, scannedCountL]
  | cons e es =>
    simp only [scanDirE] at h
    cases he : scanEntryE fk rp dp acc e with
    | error u =>
      rw [he] at h
      exact Except.noConfusion h
    | ok acc1 =>
      rw [he] at h
      replace h : scanDirE fk rp dp acc1 es = .ok acc2 := h
      obtain ⟨h1a, h1b⟩ := scanEntryE_counts fk rp dp acc e acc1 he
      obtain ⟨h2a, h2b⟩ := scanDirE_counts fk rp dp acc1 es acc2 h
      simp only [visitedCountL, scannedCountL]
      omega

end

/-- Unfolding of `scanRepositoryE` on a readable root. -/
theorem scanRepositoryE_some (entries : List FSEntry) (rp fk pv : Str) (d : Nat) :
    scanRepositoryE (some entries) rp fk pv d =
      (scanDirE fk rp rp ⟨[], 0, 0⟩ entries).bind fun acc =>
        .ok { flagKey := fk, provider := pv, repo := basename rp,
              totalMatches := acc.matchList.length, matchList := acc.matchList,
              scannedFiles := acc.scannedFiles, skippedFiles := acc.skippedFiles,
              scanDurationMs := d } := rfl

/-- C5.  For every completed scan, `scannedFiles + skippedFiles` equals the
number of regular files visited outside ignored directories; `scannedFiles`
counts exactly the files whose whole per-file processing succeeded
(recognized language, within the size ceiling, read without failure, with the
occurrence patterns constructible — every other visited file goes to
`skippedFiles`); and `totalMatches` is the length of the match list. -/
theorem scan_conservation (entries : List FSEntry) (rp fk pv : Str) (d : Nat)
    (r : ScanResult) (h : scanRepositoryE (some entries) rp fk pv d = .ok r) :
    r.scannedFiles + r.skippedFiles = visitedCountL entries ∧
    r.scannedFiles = scannedCountL (patternsOk fk) entries ∧
    r.totalMatches = r.matchList.length := by
  rw [scanRepositoryE_some] at h
  cases hd : scanDirE fk rp rp ⟨[], 0, 0⟩ entries with
  | error u =>
    rw [hd] at h
    exact Except.noConfusion h
  | ok acc =>
    rw [hd] at h
    have hr := Except.ok.inj h
    subst hr
    obtain ⟨h1, h2⟩ := scanDirE_counts fk rp rp ⟨[], 0, 0⟩ entries acc hd
    refine ⟨?_, ?_, rfl⟩
    · simpa using h1
    · simpa using h2

/-- A demonstration snapshot: one recognized readable file, one unrecognized
file, one oversized file, one unreadable file, one ignored directory with a
matching file inside, and one non-file entry. -/
def demoRoot : List FSEntry :=
  [ FSEntry.file ("a.py".toList) 14 (some pyLine)
  , FSEntry.file ("README.md".toList) 5 (some ("OLD_FLAG".toList))
  , FSEntry.file ("big.ts".toList) (1024 * 1024 + 1) (some [])
  , FSEntry.file ("locked.ts".toList) 10 none
  , FSEntry.dir ("node_modules".toList) [FSEntry.file ("x.py".toList) 14 (some pyLine)]
  , FSEntry.otherEntry ("link".toList) ]

/-- The result of scanning `demoRoot`. -/
def demoResult : ScanResult :=
  (scanRepositoryE (some demoRoot) ("repo".toList) ("OLD_FLAG".toList)
    ("launchdarkly".toList) 0).toOption.getD ⟨[], [], [], 0, [], 0, 0, 0⟩

theorem scan_conservation_witness :
    demoResult.scannedFiles + demoResult.skippedFiles = visitedCountL demoRoot ∧
    demoResult.scannedFiles = scannedCountL (patternsOk ("OLD_FLAG".toList)) demoRoot ∧
    demoResult.totalMatches = demoResult.matchList.length :=
  scan_conservation demoRoot ("repo".toList) ("OLD_FLAG".toList)
    ("launchdarkly".toList) 0 demoResult rfl

/-- C6 counterexample.  An unreadable directory encountered during traversal
(not the root) makes the whole scan fail: the uncaught `readdir` exception of
the recursive `scanDir` call propagates, so it is not true that only the
fatal root case propagates. -/
theorem unreadable_dir_counterexample :
    scanRepositoryE (some [FSEntry.badDir ("sub".toList)]) ("repo".toList)
      ("OLD_FLAG".toList) ("launchdarkly".toList) 0 = .error () := rfl

/-! ## Readable traversals always succeed -/

/-- Whether an embedded exception value is a success. -/
def isOkB {α : Type} : Except Unit α → Bool
  | .ok _ => true
  | .error _ => false

theorem isOkB_iff {α : Type} (x : Except Unit α) :
    isOkB x = true ↔ ∃ v, x = .ok v := by
  cases x <;> simp [isOkB]

mutual

theorem scanEntryE_ok_of_readable (fk rp dp : Str) (acc : ScanAcc) (e : FSEntry)
    (h : dirsReadableE e = true) : isOkB (scanEntryE fk rp dp acc e) = true := by
  cases e with
  | file name size content? =>
    simp only [scanEntryE]
    split
    · rfl
    · split
      · rfl
      · split
        · rfl
        · split
          · rfl
          · rfl
  | dir name entries =>
    simp only [scanEntryE]
    split
    · rfl
    · rename_i hig
      simp only [dirsReadableE, Bool.or_eq_true] at h
      rcases h with h | h
      · exact absurd h hig
      · exact scanDirE_ok_of_readable fk rp (pathJoin dp name) acc entries h
  | badDir name =>
    simp only [scanEntryE]
    simp only [dirsReadableE] at h
    rw [if_pos h]
    rfl
  | otherEntry name => rfl

theorem scanDirE_ok_of_readable (fk rp dp : Str) (acc : ScanAcc)
    (es : List FSEntry) (h : dirsReadableL es = true) :
    isOkB (scanDirE fk rp dp acc es) = true := by
  cases es with
  | nil => rfl
  | cons e es =>
    simp only [dirsReadableL, Bool.and_eq_true] at h
    have h1 := scanEntryE_ok_of_readable fk rp dp acc e h.1
    cases he : scanEntryE fk rp dp acc e with
    | error u =>
      rw [he] at h1
      exact absurd h1 (by simp [isOkB])
    | ok acc1 =>
      have h2 := scanDirE_ok_of_readable fk rp dp acc1 es h.2
      simp only [scanDirE]
      rw [he]
      exact h2

end

/-- C6 amended.  The fatal root failure propagates (`root = none` gives an
error), and so does an unreadable directory met during traversal — but when
every reachable directory is readable, the scan always returns a result, with
every per-file failure (unrecognized, oversized, or unreadable file, or
pattern-construction failure) absorbed into `skippedFiles`: a single
unreadable *file* never fails the overall operation. -/
theorem error_propagation_amended (entries : List FSEntry) (rp fk pv : Str)
    (d : Nat) (hread : dirsReadableL entries = true) :
    (scanRepositoryE none rp fk pv d = .error ()) ∧
    ∃ r, scanRepositoryE (some entries) rp fk pv d = .ok r ∧
      r.scannedFiles + r.skippedFiles = visitedCountL entries ∧
      r.scannedFiles = scannedCountL (patternsOk fk) entries := by
  refine ⟨rfl, ?_⟩
  obtain ⟨acc, hacc⟩ := (isOkB_iff _).mp
    (scanDirE_ok_of_readable fk rp rp ⟨[], 0, 0⟩ entries hread)
  obtain ⟨h1, h2⟩ := scanDirE_counts fk rp rp ⟨[], 0, 0⟩ entries acc hacc
  rw [scanRepositoryE_some, hacc]
  exact ⟨_, rfl, by simpa using h1, by simpa using h2⟩

theorem error_propagation_amended_witness :
    (scanRepositoryE none ("repo".toList) ("OLD_FLAG".toList)
        ("launchdarkly".toList) 0 = .error ()) ∧
    ∃ r, scanRepositoryE (some demoRoot) ("repo".toList) ("OLD_FLAG".toList)
        ("launchdarkly".toList) 0 = .ok r ∧
      r.scannedFiles + r.skippedFiles = visitedCountL demoRoot ∧
      r.scannedFiles = scannedCountL (patternsOk ("OLD_FLAG".toList)) demoRoot :=
  error_propagation_amended demoRoot ("repo".toList) ("OLD_FLAG".toList)
    ("launchdarkly".toList) 0 rfl

/-- C7.  A directory whose name is in the ignore set is never descended into:
processing it leaves the accumulator untouched — no matches from its contents
(whatever they are) and no change to either counter. -/
theorem ignored_dir_not_visited (fk rp dp name : Str) (entries : List FSEntry)
    (acc : ScanAcc) (h : IGNORE_DIRS.contains name = true) :
    scanEntryE fk rp dp acc (FSEntry.dir name entries) = .ok acc := by
  simp only [scanEntryE]
  rw [if_pos h]

theorem ignored_dir_not_visited_witness :
    scanEntryE ("OLD_FLAG".toList) ("repo".toList) ("repo".toList) ⟨[], 0, 0⟩
      (FSEntry.dir ("node_modules".toList)
        [FSEntry.file ("x.py".toList) 14 (some pyLine)]) = .ok ⟨[], 0, 0⟩ :=
  ignored_dir_not_visited ("OLD_FLAG".toList) ("repo".toList) ("repo".toList)
    ("node_modules".toList) [FSEntry.file ("x.py".toList) 14 (some pyLine)]
    ⟨[], 0, 0⟩ rfl

/-- C8.  For a fixed snapshot and fixed `(repoPath, flagKey, provider)`, two
scans agree on every field except the normalized `scanDurationMs`: the result
is a function of the snapshot and the arguments only. -/
theorem scan_deterministic (root : Option (List FSEntry)) (rp fk pv : Str)
    (d1 d2 : Nat) (r1 r2 : ScanResult)
    (h1 : scanRepositoryE root rp fk pv d1 = .ok r1)
    (h2 : scanRepositoryE root rp fk pv d2 = .ok r2) :
    r1.flagKey = r2.flagKey ∧ r1.provider = r2.provider ∧ r1.repo = r2.repo ∧
    r1.totalMatches = r2.totalMatches ∧ r1.matchList = r2.matchList ∧
    r1.scannedFiles = r2.scannedFiles ∧ r1.skippedFiles = r2.skippedFiles := by
  cases root with
  | none =>
    unfold scanRepositoryE at h1
    exact Except.noConfusion h1
  | some es =>
    rw [scanRepositoryE_some] at h1 h2
    cases hd : scanDirE fk rp rp ⟨[], 0, 0⟩ es with
    | error u =>
      rw [hd] at h1
      exact Except.noConfusion h1
    | ok acc =>
      rw [hd] at h1 h2
      have e1 := Except.ok.inj h1
      have e2 := Except.ok.inj h2
      subst e1
      subst e2
      exact ⟨rfl, rfl, rfl, rfl, rfl, rfl, rfl⟩

/-- The result of scanning `demoRoot` with a different clock value. -/
def demoResult5 : ScanResult :=
  (scanRepositoryE (some demoRoot) ("repo".toList) ("OLD_FLAG".toList)
    ("launchdarkly".toList) 5).toOption.getD ⟨[], [], [], 0, [], 0, 0, 0⟩

theorem scan_deterministic_witness :
    demoResult.flagKey = demoResult5.flagKey ∧
    demoResult.provider = demoResult5.provider ∧
    demoResult.repo = demoResult5.repo ∧
    demoResult.totalMatches = demoResult5.totalMatches ∧
    demoResult.matchList = demoResult5.matchList ∧
    demoResult.scannedFiles = demoResult5.scannedFiles ∧
    demoResult.skippedFiles = demoResult5.skippedFiles :=
  scan_deterministic (some demoRoot) ("repo".toList) ("OLD_FLAG".toList)
    ("launchdarkly".toList) 0 5 demoResult demoResult5 rfl rfl

/-! ## Confidence on test paths -/

theorem scanLinesAux_no_high (fp rp : Str) (lg : Lang) (hs : Bool)
    (allLines : List Str) (pats : List RPat) (hfp : isTestPath fp = true) :
    ∀ (ls : List Str) (i : Nat) (m : ScanMatch),
      m ∈ scanLinesAux fp rp lg hs allLines pats i ls →
      m.confidence ≠ Confidence.high := by
  intro ls i m hm
  rcases scanLinesAux_mem fp rp lg hs allLines pats ls i m hm with
    ⟨j, l, _, _, _, hmk⟩
  rw [hmk]
  simp only [mkMatch]
  exact determineConfidence_not_high_of_testPath _ hs fp hfp

theorem scanFileE_no_high (fp c fk : Str) (lg : Lang) (rp : Str)
    (ms : List ScanMatch) (hfp : isTestPath fp = true)
    (h : scanFileE fp c fk lg rp = .ok ms) :
    ∀ m ∈ ms, m.confidence ≠ Confidence.high := by
  intro m hm
  cases hp : flagCallPatternsE lg fk with
  | error u =>
    unfold scanFileE at h
    rw [hp] at h
    exact Except.noConfusion h
  | ok pats =>
    have heq : scanFileE fp c fk lg rp =
        Except.ok (scanLinesAux fp rp lg (hasSDKImport c lg) (splitOnNl c) pats 0
          (splitOnNl c)) := by
      unfold scanFileE
      rw [hp]
      rfl
    rw [heq] at h
    have h2 := Except.ok.inj h
    subst h2
    exact scanLinesAux_no_high fp rp lg _ _ pats hfp _ 0 m hm

mutual

theorem scanEntryE_no_high (fk rp dp : Str) (acc : ScanAcc) (e : FSEntry)
    (acc2 : ScanAcc) (hdp : isTestPath dp = true)
    (h : scanEntryE fk rp dp acc e = .ok acc2) :
    ∀ m ∈ acc2.matchList, m ∈ acc.matchList ∨ m.confidence ≠ Confidence.high := by
  cases e with
  | file name size content? =>
    simp only [scanEntryE] at h
    split at h
    · have hacc := Except.ok.inj h
      subst hacc
      exact fun m hm => Or.inl hm
    · rename_i lang hdl
      split at h
      · have hacc := Except.ok.inj h
        subst hacc
        exact fun m hm => Or.inl hm
      · split at h
        · have hacc := Except.ok.inj h
          subst hacc
          exact fun m hm => Or.inl hm
        · rename_i content
          split at h
          · have hacc := Except.ok.inj h
            subst hacc
            exact fun m hm => Or.inl hm
          · rename_i fileMatches hsf
            have hacc := Except.ok.inj h
            subst hacc
            intro m hm
            rcases List.mem_append.mp hm with hm | hm
            · exact Or.inl hm
            · exact Or.inr (scanFileE_no_high (pathJoin dp name) content fk lang rp
                fileMatches (isTestPath_pathJoin dp name hdp) hsf m hm)
  | dir name entries =>
    simp only [scanEntryE] at h
    split at h
    · have hacc := Except.ok.inj h
      subst hacc
      exact fun m hm => Or.inl hm
    · exact scanDirE_no_high fk rp (pathJoin dp name) acc entries acc2
        (isTestPath_pathJoin dp name hdp) h
  | badDir name =>
    simp only [scanEntryE] at h
    split at h
    · have hacc := Except.ok.inj h
      subst hacc
      exact fun m hm => Or.inl hm
    · exact Except.noConfusion h
  | otherEntry name =>
    simp only [scanEntryE] at h
    have hacc := Except.ok.inj h
    subst hacc
    exact fun m hm => Or.inl hm

theorem scanDirE_no_high (fk rp dp : Str) (acc : ScanAcc) (es : List FSEntry)
    (acc2 : ScanAcc) (hdp : isTestPath dp = true)
    (h : scanDirE fk rp dp acc es = .ok acc2) :
    ∀ m ∈ acc2.matchList, m ∈ acc.matchList ∨ m.confidence ≠ Confidence.high := by
  cases es with
  | nil =>
    simp only [scanDirE] at h
    have hacc := Except.ok.inj h
    subst hacc
    exact fun m hm => Or.inl hm
  | cons e es =>
    simp only [scanDirE] at h
    cases he : scanEntryE fk rp dp acc e with
    | error u =>
      rw [he] at h
      exact Except.noConfusion h
    | ok acc1 =>
      rw [he] at h
      replace h : scanDirE fk rp dp acc1 es = .ok acc2 := h
      intro m hm
      rcases scanDirE_no_high fk rp dp acc1 es acc2 hdp h m hm with hm1 | hne
      · exact scanEntryE_no_high fk rp dp acc e acc1 hdp he m hm1
      · exact Or.inr hne

end

/-- C9.  The test-path check of confidence scoring runs on the absolute file
path, which starts with the repository root: if `repoPath` itself contains
`test`, `spec`, or `__tests__` (i.e. `isTestPath repoPath`), then no match of
the whole scan has confidence `high`, regardless of file contents. -/
theorem test_repo_path_never_high (entries : List FSEntry) (rp fk pv : Str)
    (d : Nat) (r : ScanResult) (hrp : isTestPath rp = true)
    (h : scanRepositoryE (some entries) rp fk pv d = .ok r) :
    r.matchList.all (fun m => m.confidence != Confidence.high) = true := by
  rw [scanRepositoryE_some] at h
  cases hd : scanDirE fk rp rp ⟨[], 0, 0⟩ entries with
  | error u =>
    rw [hd] at h
    exact Except.noConfusion h
  | ok acc =>
    rw [hd] at h
    have hr := Except.ok.inj h
    subst hr
    rw [List.all_eq_true]
    intro m hm
    rcases scanDirE_no_high fk rp rp ⟨[], 0, 0⟩ entries acc hrp hd m
        (by simpa using hm) with hm0 | hne
    · simp at hm0
    · simpa [bne_iff_ne] using hne

/-- The accessor-call line of the clean-match scenario. -/
def tsLine : Str :=
  "client.boolVariation(".toList ++ quoteCh ::
    ("OLD_FLAG".toList ++ quoteCh :: ", false)".toList)

/-- An SDK-import line for TypeScript. -/
def tsImportLine : Str :=
  "import * from ".toList ++ '"' :: ("launchdarkly-node-server-sdk".toList ++ ['"'])

/-- A TypeScript file that yields a `high`-confidence match in a clean
repository path. -/
def tsContent : Str := tsImportLine ++ '\n' :: tsLine

/-- A repository root path containing the `test` marker. -/
def testRepoPath : Str := "/tmp/test/repo".toList

/-- The clean-match file placed under the test-marked root. -/
def testRepoRoot : List FSEntry := [FSEntry.file ("a.ts".toList) 100 (some tsContent)]

/-- Scan result for `testRepoRoot` under `testRepoPath`. -/
def testRepoResult : ScanResult :=
  (scanRepositoryE (some testRepoRoot) testRepoPath ("OLD_FLAG".toList)
    ("launchdarkly".toList) 0).toOption.getD ⟨[], [], [], 0, [], 0, 0, 0⟩

theorem test_repo_path_never_high_witness :
    testRepoResult.matchList.all (fun m => m.confidence != Confidence.high) = true :=
  test_repo_path_never_high testRepoRoot testRepoPath ("OLD_FLAG".toList)
    ("launchdarkly".toList) 0 testRepoResult rfl rfl

/-! ## Behaviour under an invalid-regex flag key -/

mutual

theorem scanEntryE_invalid_key (fk rp dp : Str) (acc : ScanAcc) (e : FSEntry)
    (acc2 : ScanAcc) (hk : keyToks fk = .error ())
    (h : scanEntryE fk rp dp acc e = .ok acc2) :
    acc2.matchList = acc.matchList ∧ acc2.scannedFiles = acc.scannedFiles := by
  cases e with
  | file name size content? =>
    simp only [scanEntryE] at h
    split at h
    · have hacc := Except.ok.inj h
      subst hacc
      exact ⟨rfl, rfl⟩
    · rename_i lang hdl
      split at h
      · have hacc := Except.ok.inj h
        subst hacc
        exact ⟨rfl, rfl⟩
      · split at h
        · have hacc := Except.ok.inj h
          subst hacc
          exact ⟨rfl, rfl⟩
        · rename_i content
          split at h
          · have hacc := Except.ok.inj h
            subst hacc
            exact ⟨rfl, rfl⟩
          · rename_i fileMatches hsf
            rw [scanFileE_err (pathJoin dp name) content fk lang rp hk] at hsf
            exact Except.noConfusion hsf
  | dir name entries =>
    simp only [scanEntryE] at h
    split at h
    · have hacc := Except.ok.inj h
      subst hacc
      exact ⟨rfl, rfl⟩
    · exact scanDirE_invalid_key fk rp (pathJoin dp name) acc entries acc2 hk h
  | badDir name =>
    simp only [scanEntryE] at h
    split at h
    · have hacc := Except.ok.inj h
      subst hacc
      exact ⟨rfl, rfl⟩
    · exact Except.noConfusion h
  | otherEntry name =>
    simp only [scanEntryE] at h
    have hacc := Except.ok.inj h
    subst hacc
    exact ⟨rfl, rfl⟩

theorem scanDirE_invalid_key (fk rp dp : Str) (acc : ScanAcc) (es : List FSEntry)
    (acc2 : ScanAcc) (hk : keyToks fk = .error ())
    (h : scanDirE fk rp dp acc es = .ok acc2) :
    acc2.matchList = acc.matchList ∧ acc2.scannedFiles = acc.scannedFiles := by
  cases es with
  | nil =>
    simp only [scanDirE] at h
    have hacc := Except.ok.inj h
    subst hacc
    exact ⟨rfl, rfl⟩
  | cons e es =>
    simp only [scanDirE] at h
    cases he : scanEntryE fk rp dp acc e with
    | error u =>
      rw [he] at h
      exact Except.noConfusion h
    | ok acc1 =>
      rw [he] at h
      replace h : scanDirE fk rp dp acc1 es = .ok acc2 := h
      obtain ⟨h1a, h1b⟩ := scanEntryE_invalid_key fk rp dp acc e acc1 hk he
      obtain ⟨h2a, h2b⟩ := scanDirE_invalid_key fk rp dp acc1 es acc2 hk h
      exact ⟨h2a.trans h1a, h2b.trans h1b⟩

end

/-- C10.  The flag key is interpolated into the occurrence regexes without
escaping, so a key that is not valid regex syntax (e.g. one with a lone `(`)
makes pattern construction throw inside each file's `try` block: the scan
still completes, with zero matches, no file counted as scanned, and every
visited file — in particular every recognized-language file — counted in
`skippedFiles`, and no error reaches the caller. -/
theorem invalid_regex_key_absorbed (entries : List FSEntry) (rp fk pv : Str)
    (d : Nat) (r : ScanResult) (hk : keyToks fk = .error ())
    (h : scanRepositoryE (some entries) rp fk pv d = .ok r) :
    r.totalMatches = 0 ∧ r.matchList = [] ∧ r.scannedFiles = 0 ∧
    r.skippedFiles = visitedCountL entries := by
  rw [scanRepositoryE_some] at h
  cases hd : scanDirE fk rp rp ⟨[], 0, 0⟩ entries with
  | error u =>
    rw [hd] at h
    exact Except.noConfusion h
  | ok acc =>
    rw [hd] at h
    have hr := Except.ok.inj h
    subst hr
    obtain ⟨hm, hs⟩ := scanDirE_invalid_key fk rp rp ⟨[], 0, 0⟩ entries acc hk hd
    obtain ⟨hc1, hc2⟩ := scanDirE_counts fk rp rp ⟨[], 0, 0⟩ entries acc hd
    simp only at hm hs hc1 hc2
    refine ⟨?_, ?_, ?_, ?_⟩
    · simp [hm]
    · simpa using hm
    · simpa using hs
    · have hz : acc.scannedFiles = 0 := hs
      simp only
      omega

/-- A snapshot with one recognized TypeScript file, for the invalid-key
scenario. -/
def badKeyRoot : List FSEntry := [FSEntry.file ("a.ts".toList) 10 (some pyLine)]

/-- Scan result for `badKeyRoot` with the invalid key `OLD(`. -/
def badKeyResult : ScanResult :=
  (scanRepositoryE (some badKeyRoot) ("repo".toList) ("OLD(".toList)
    ("launchdarkly".toList) 0).toOption.getD ⟨[], [], [], 0, [], 0, 0, 0⟩

theorem invalid_regex_key_absorbed_witness :
    badKeyResult.totalMatches = 0 ∧ badKeyResult.matchList = [] ∧
    badKeyResult.scannedFiles = 0 ∧
    badKeyResult.skippedFiles = visitedCountL badKeyRoot :=
  invalid_regex_key_absorbed badKeyRoot ("repo".toList) ("OLD(".toList)
    ("launchdarkly".toList) 0 badKeyResult rfl rfl
